import Mathlib

/-!
Verification of the `One_For_All` repository: a two-lock, sentinel-node
threadsafe FIFO queue (`src/include/threadsafe_queue.hpp`) and a worker
thread pool built on it (`src/unnamed/part_000`: `JoinThreads`,
`FunctionWrapper`, `ThreadPool`).

The queue is embedded as the chain of nodes reachable from `head`:
each entry of `chain` is the data slot (`std::shared_ptr<T>`, `none`
modelling the null pointer) of one node, entry 0 being the node owned by
`head` and the final entry the node referenced by `tail`.  Pointer
comparison `head.get() == get_tail()` is chain-length-one, since `head`
references node 0 and `tail` the last node of the same chain.

Stateful operations are embedded as explicit state passing: an operation
that in C++ mutates the queue and returns `r` becomes a Lean function
returning `r × ThreadsafeQueue α`.  The blocking `wait_*` family is given
single-threaded semantics: `none` models "blocks forever" (no concurrent
producer exists to wake the condition variable).
-/

namespace OneForAll

/-- The node chain of `ThreadsafeQueue<T>`: one `Option α` per node, the
data slot of that node (null `shared_ptr` = `none`).  The queue object of
the C++ source also owns two mutexes and a condition variable; these have
no pure content and each operation below is one critical section. -/
structure ThreadsafeQueue (α : Type) where
  chain : List (Option α)
  deriving DecidableEq, Repr

namespace ThreadsafeQueue

/-- `ThreadsafeQueue(): head(new node), tail(head.get())` — a single
sentinel node with a null data slot. -/
def new (α : Type) : ThreadsafeQueue α := ⟨[none]⟩

/-- The pointer comparison `head.get() == get_tail()`: `head` references
node 0 and `tail` the last node of the same chain, so they are equal
exactly when the chain has a single node. -/
def headIsTail (q : ThreadsafeQueue α) : Bool := q.chain.length == 1

/-- `bool empty()`: lock head side, compare `head.get()` with `get_tail()`. -/
def empty (q : ThreadsafeQueue α) : Bool := q.headIsTail

/-- The write `tail->data = new_data` performed by `push`: set the data
slot of the last node of the chain. -/
def setTailData (v : α) : List (Option α) → List (Option α)
  | [] => []
  | [_] => [some v]
  | x :: xs => x :: setTailData v xs

/-- `void push(T new_value)`: under the tail lock, store the value in the
current tail node's data slot, attach a fresh sentinel as its `next`, and
advance `tail` to that sentinel. -/
def push (q : ThreadsafeQueue α) (v : α) : ThreadsafeQueue α :=
  ⟨setTailData v q.chain ++ [none]⟩

/-- `std::unique_ptr<node> pop_head()`: detach the head node and advance
`head` to its `next`.  Returns the detached node's data slot together with
the remaining queue.  The empty-chain branch is unreachable: the chain
always holds at least the sentinel. -/
def pop_head (q : ThreadsafeQueue α) : Option α × ThreadsafeQueue α :=
  match q.chain with
  | [] => (none, q)
  | d :: rest => (d, ⟨rest⟩)

/-- `std::unique_ptr<node> try_pop_head()`: under the head lock, return a
null node pointer when `head.get() == get_tail()`, else `pop_head()`.
The outer `Option` is the returned `unique_ptr<node>` (null = `none`),
the inner `Option α` the popped node's data slot. -/
def try_pop_head (q : ThreadsafeQueue α) : Option (Option α) × ThreadsafeQueue α :=
  if q.headIsTail then (none, q)
  else
    let p := q.pop_head
    (some p.1, p.2)

/-- `std::shared_ptr<T> try_pop()`: `old_head ? old_head->data :
std::shared_ptr<T>()`. -/
def try_pop (q : ThreadsafeQueue α) : Option α × ThreadsafeQueue α :=
  match q.try_pop_head with
  | (none, q') => (none, q')
  | (some d, q') => (d, q')

/-- Dereference `*head->data` of a `shared_ptr`.  Dereferencing null is
undefined behaviour; that branch is unreachable from well-formed states,
and the model leaves the destination variable unchanged there. -/
def derefData (d : Option α) (old : α) : α := d.getD old

/-- `std::unique_ptr<node> try_pop_head(T& value)`: as `try_pop_head()`,
but assigns `value = std::move(*head->data)` before `pop_head()`.  The
`value` argument is the current content of the caller's variable; the
middle component of the result is its content afterwards. -/
def try_pop_head_ref (q : ThreadsafeQueue α) (value : α) :
    Option (Option α) × α × ThreadsafeQueue α :=
  if q.headIsTail then (none, value, q)
  else
    match q.chain with
    | [] => (none, value, q)
    | d :: rest => (some d, derefData d value, ⟨rest⟩)

/-- `bool try_pop(T& value)`: converts the `unique_ptr<node>` returned by
`try_pop_head(value)` to `bool`. -/
def try_pop_ref (q : ThreadsafeQueue α) (value : α) : Bool × α × ThreadsafeQueue α :=
  match q.try_pop_head_ref value with
  | (r, v, q') => (r.isSome, v, q')

/-- `wait_for_data` + `wait_pop_head()`: block on the condition variable
until `head.get() != get_tail()`, then `pop_head()`.  Single-threaded
semantics: on an empty queue no push can occur, so the call never returns
(`none`). -/
def wait_pop_head (q : ThreadsafeQueue α) : Option (Option α × ThreadsafeQueue α) :=
  if q.headIsTail then none
  else some q.pop_head

/-- `std::shared_ptr<T> wait_and_pop()`: `wait_pop_head()->data`. -/
def wait_and_pop (q : ThreadsafeQueue α) : Option (Option α × ThreadsafeQueue α) :=
  q.wait_pop_head

/-- `wait_pop_head(T& value)`: wait for data, assign
`value = std::move(*head->data)`, then `pop_head()`. -/
def wait_pop_head_ref (q : ThreadsafeQueue α) (value : α) :
    Option (α × ThreadsafeQueue α) :=
  if q.headIsTail then none
  else
    match q.chain with
    | [] => none
    | d :: rest => some (derefData d value, ⟨rest⟩)

/-- `void wait_and_pop(T& value)`: just `wait_pop_head(value)`, the
returned node being discarded. -/
def wait_and_pop_ref (q : ThreadsafeQueue α) (value : α) :
    Option (α × ThreadsafeQueue α) :=
  q.wait_pop_head_ref value

/-- The logical contents of the queue: the data slots of every node
except the tail sentinel.  For well-formed states these slots are all
occupied. -/
def toList (q : ThreadsafeQueue α) : List α :=
  q.chain.dropLast.filterMap id

/-- Well-formedness: the chain reachable from `head` is the data nodes
(each slot occupied) followed by the tail sentinel (slot null).  Holds
for the freshly constructed queue and is preserved by every operation. -/
def Wf (q : ThreadsafeQueue α) : Prop :=
  ∃ vs : List α, q.chain = vs.map some ++ [none]

/-- Push all values of a list in order (left to right). -/
def pushAll (q : ThreadsafeQueue α) (vs : List α) : ThreadsafeQueue α :=
  vs.foldl push q

/-- Call `try_pop` `n` times in sequence, collecting the returned
`shared_ptr` values. -/
def popN (q : ThreadsafeQueue α) : Nat → List (Option α) × ThreadsafeQueue α
  | 0 => ([], q)
  | n + 1 =>
    let p := q.try_pop
    let r := p.2.popN n
    (p.1 :: r.1, r.2)

end ThreadsafeQueue

/-- One atomic queue operation performed by some producer or consumer
thread.  Each `push` and each `try_pop` of the C++ queue is a single
critical section (push under the tail lock, pop under the head lock), so
an arbitrary concurrent execution linearises to a sequence of these. -/
inductive QOp (α : Type) where
  | push (v : α)
  | tryPop
  deriving DecidableEq, Repr

/-- Run an arbitrary interleaving of producer pushes and consumer
`try_pop`s against the queue, collecting every successfully popped value
in pop order. -/
def runOps (q : ThreadsafeQueue α) : List (QOp α) → ThreadsafeQueue α × List α
  | [] => (q, [])
  | QOp.push v :: ops => runOps (q.push v) ops
  | QOp.tryPop :: ops =>
      match q.try_pop with
      | (some v, q') => ((runOps q' ops).1, v :: (runOps q' ops).2)
      | (none, q') => runOps q' ops

/-- The values pushed by an operation sequence, in push order. -/
def pushedValues : List (QOp α) → List α
  | [] => []
  | QOp.push v :: ops => v :: pushedValues ops
  | QOp.tryPop :: ops => pushedValues ops

/-- `FunctionWrapper` (the TaskCell): a type-erased holder of one
callable behind `std::unique_ptr<impl_base> impl`.  `τ` is the payload
the erased `impl_type<F>` object carries; `impl = none` models the null
`unique_ptr` of a default-constructed (or moved-from) wrapper. -/
structure FunctionWrapper (τ : Type) where
  impl : Option τ
  deriving DecidableEq, Repr

/-- `FunctionWrapper() = default`: the `unique_ptr impl` member is null. -/
def FunctionWrapper.default (τ : Type) : FunctionWrapper τ := ⟨none⟩

/-- `void operator()() { impl->call(); }`: dispatch through `impl`.  When
`impl` is null this dereferences a null pointer — undefined behaviour —
modelled as `none`; a successful dispatch runs the erased callable. -/
def FunctionWrapper.callOp (w : FunctionWrapper τ) (run : τ → ρ) : Option ρ :=
  w.impl.map run

/-- `ThreadPool::worker_thread`'s loop
`while(!done) { FunctionWrapper task; if(work_queue.try_pop(task)) task(); else yield; }`.
`doneSeq` is the successive values this worker's `while(!done)` reads
from the shared atomic flag — the flag is checked once per iteration,
between task executions, and the destructor thread may flip it at any
point.  Returns the queue left behind and the wrappers this worker
invoked, in invocation order; an exhausted `doneSeq` means the loop is
still running. -/
def workerRun : List Bool → ThreadsafeQueue (FunctionWrapper τ) →
    List (FunctionWrapper τ) →
    ThreadsafeQueue (FunctionWrapper τ) × List (FunctionWrapper τ)
  | [], q, executed => (q, executed)
  | true :: _, q, executed => (q, executed)
  | false :: ds, q, executed =>
      match q.try_pop_ref (FunctionWrapper.default τ) with
      | (true, task, q') => workerRun ds q' (executed ++ [task])
      | (false, _, q') => workerRun ds q' executed

namespace ThreadPool

/-- `JoinThreads::~JoinThreads`: joins every joinable thread of the
vector in index order.  Threads are identified by their spawn index; a
started, never-joined thread is joinable, so all of them are joined. -/
def JoinThreads.joinAll (threads : List Nat) : List Nat := threads

/-- The spawn loop of the `ThreadPool` constructor:
`for(unsigned i=0;i<thread_count;++i) threads.push_back(std::thread(...))`.
`spawnFail i` tells whether creating the `i`-th thread throws
(`std::system_error` from the OS).  On success returns the spawned
thread indices; on a throw, the error carries the threads already
started.  Arguments: failure oracle, current index `i`, remaining
iterations, threads started so far. -/
def spawnWorkers (spawnFail : Nat → Bool) : Nat → Nat → List Nat →
    Except (List Nat) (List Nat)
  | _, 0, started => .ok started
  | i, n + 1, started =>
      if spawnFail i then .error started
      else spawnWorkers spawnFail (i + 1) n (started ++ [i])

/-- The observable state left behind when the constructor propagates a
thread-creation failure: the value of the `done` flag (set in the
`catch` block before rethrowing) and the threads joined during stack
unwinding (members are destroyed in reverse declaration order, so
`joiner` — declared after `threads` — joins the started threads). -/
structure CtorFailState where
  done : Bool
  joined : List Nat
  deriving DecidableEq, Repr

/-- A successfully constructed pool: the `done` flag and the spawned
worker threads. -/
structure Pool where
  done : Bool
  threads : List Nat
  deriving DecidableEq, Repr

/-- `ThreadPool::ThreadPool()`: reads
`thread_count = std::thread::hardware_concurrency()` and spawns exactly
`thread_count` workers; on a throw, sets `done = true` and rethrows,
stack unwinding joining the already-started workers. -/
def construct (hardware_concurrency : Nat) (spawnFail : Nat → Bool) :
    Except CtorFailState Pool :=
  let thread_count := hardware_concurrency
  match spawnWorkers spawnFail 0 thread_count [] with
  | .ok started => .ok ⟨false, started⟩
  | .error started => .error ⟨true, JoinThreads.joinAll started⟩

/-- Number of worker threads of a pool constructed without spawn
failures, as a function of the `hardware_concurrency()` result. -/
def workersSpawned (hardware_concurrency : Nat) : Nat :=
  match construct hardware_concurrency (fun _ => false) with
  | .ok p => p.threads.length
  | .error _ => 0

end ThreadPool

/-- The shared state of a promise after its `std::packaged_task` ran:
either the value the callable returned or the exception it raised. -/
inductive Outcome (ε α : Type) where
  | value (v : α)
  | error (e : ε)
  deriving DecidableEq, Repr

/-- Invoking a `std::packaged_task` wrapping a callable whose behaviour
is `f`: run the callable and store its return value — or any exception
it raises — into the promise's shared state.  The exception never
escapes the invocation. -/
def runPackagedTask (f : Except ε α) : Outcome ε α :=
  match f with
  | .ok v => .value v
  | .error e => .error e

/-- The submission-side state of the pool: the work queue of packaged
tasks (future id paired with the callable's behaviour), the next fresh
future id, and the promises fulfilled so far (future id, stored
outcome). -/
structure PoolState (ε α : Type) where
  work_queue : ThreadsafeQueue (Nat × Except ε α)
  nextId : Nat
  results : List (Nat × Outcome ε α)
  deriving Repr

namespace PoolState

/-- A freshly constructed pool: empty queue, no fulfilled promises. -/
def init (ε α : Type) : PoolState ε α := ⟨ThreadsafeQueue.new _, 0, []⟩

/-- `submit(f)`: build a `packaged_task` from the callable, take its
future (a fresh id), push the task onto `work_queue`, and return the
future immediately. -/
def submit (s : PoolState ε α) (f : Except ε α) : Nat × PoolState ε α :=
  (s.nextId, ⟨s.work_queue.push (s.nextId, f), s.nextId + 1, s.results⟩)

/-- Submit a list of callables in order, discarding the returned
futures (each equals its position in the list). -/
def submitAll (s : PoolState ε α) (fs : List (Except ε α)) : PoolState ε α :=
  fs.foldl (fun t f => (t.submit f).2) s

/-- One worker iteration: `if(work_queue.try_pop(task)) task();`.  A
popped packaged task is invoked, fulfilling its promise with the
callable's value or captured error; an error does not disturb the
worker or the pool. -/
def workerStep (s : PoolState ε α) : PoolState ε α :=
  match s.work_queue.try_pop with
  | (some t, q') => ⟨q', s.nextId, s.results ++ [(t.1, runPackagedTask t.2)]⟩
  | (none, q') => ⟨q', s.nextId, s.results⟩

/-- Run `n` worker iterations. -/
def runWorkers (s : PoolState ε α) : Nat → PoolState ε α
  | 0 => s
  | n + 1 => s.workerStep.runWorkers n

/-- `future::get` against the fulfilled-promise store: the first (and,
as proved below, only) outcome recorded for future `i`. -/
def futureGet (s : PoolState ε α) (i : Nat) : Option (Outcome ε α) :=
  ((s.results.filter (fun p => p.1 == i)).head?).map Prod.snd

end PoolState

namespace ThreadsafeQueue

/-! ### Basic chain lemmas -/

theorem setTailData_wf (v : α) (vs : List α) :
    setTailData v (vs.map some ++ [none]) = vs.map some ++ [some v] := by
  induction vs with
  | nil => rfl
  | cons w ws ih =>
      cases hx : ws.map some ++ [(none : Option α)] with
      | nil => simp at hx
      | cons x xs =>
          have h1 : (w :: ws).map some ++ [(none : Option α)] = some w :: x :: xs := by
            simp [hx]
          rw [h1]
          show some w :: setTailData v (x :: xs) = (w :: ws).map some ++ [some v]
          rw [← hx, ih]
          simp

theorem push_wf (vs : List α) (v : α) :
    push ⟨vs.map some ++ [none]⟩ v = ⟨(vs ++ [v]).map some ++ [none]⟩ := by
  simp [push, setTailData_wf, List.map_append]

theorem pushAll_wf (vs ws : List α) :
    pushAll ⟨ws.map some ++ [none]⟩ vs = ⟨(ws ++ vs).map some ++ [none]⟩ := by
  induction vs generalizing ws with
  | nil => simp [pushAll]
  | cons v vs ih =>
      simp only [pushAll, List.foldl_cons] at ih ⊢
      rw [push_wf, ih]
      simp

theorem headIsTail_wf (vs : List α) :
    headIsTail (⟨vs.map some ++ [none]⟩ : ThreadsafeQueue α) = vs.isEmpty := by
  cases vs <;> simp [headIsTail]

theorem empty_wf (vs : List α) :
    (⟨vs.map some ++ [none]⟩ : ThreadsafeQueue α).empty = vs.isEmpty :=
  headIsTail_wf vs

theorem try_pop_wf_nil :
    try_pop (⟨[none]⟩ : ThreadsafeQueue α) = (none, ⟨[none]⟩) := by
  rfl

theorem try_pop_wf_cons (v : α) (vs : List α) :
    try_pop ⟨(v :: vs).map some ++ [none]⟩ = (some v, ⟨vs.map some ++ [none]⟩) := by
  simp [try_pop, try_pop_head, pop_head, headIsTail]

theorem toList_wf (vs : List α) :
    toList (⟨vs.map some ++ [none]⟩ : ThreadsafeQueue α) = vs := by
  simp only [toList, List.dropLast_concat]
  induction vs with
  | nil => rfl
  | cons v vs ih => simp [List.filterMap_cons, ih]

theorem popN_wf (vs : List α) :
    popN ⟨vs.map some ++ [none]⟩ vs.length = (vs.map some, ⟨[none]⟩) := by
  induction vs with
  | nil => rfl
  | cons v vs ih =>
      simp only [List.length_cons, popN, try_pop_wf_cons, ih]
      simp

theorem try_pop_ref_wf_nil (x : α) :
    try_pop_ref (⟨[none]⟩ : ThreadsafeQueue α) x = (false, x, ⟨[none]⟩) := rfl

theorem try_pop_ref_wf_cons (v : α) (vs : List α) (x : α) :
    try_pop_ref ⟨(v :: vs).map some ++ [none]⟩ x =
      (true, v, ⟨vs.map some ++ [none]⟩) := by
  simp [try_pop_ref, try_pop_head_ref, headIsTail, derefData]

theorem wait_and_pop_wf_cons (v : α) (vs : List α) :
    wait_and_pop ⟨(v :: vs).map some ++ [none]⟩ =
      some (some v, ⟨vs.map some ++ [none]⟩) := by
  simp [wait_and_pop, wait_pop_head, headIsTail, pop_head]

theorem wait_and_pop_ref_wf_cons (v : α) (vs : List α) (x : α) :
    wait_and_pop_ref ⟨(v :: vs).map some ++ [none]⟩ x =
      some (v, ⟨vs.map some ++ [none]⟩) := by
  simp [wait_and_pop_ref, wait_pop_head_ref, headIsTail, derefData]

theorem eq_mk_of_wf {q : ThreadsafeQueue α} (h : Wf q) :
    ∃ vs : List α, q = ⟨vs.map some ++ [none]⟩ := by
  obtain ⟨vs, hv⟩ := h
  refine ⟨vs, ?_⟩
  cases q with
  | mk c => simp only at hv; rw [hv]

theorem wf_mk (vs : List α) : Wf (⟨vs.map some ++ [none]⟩ : ThreadsafeQueue α) :=
  ⟨vs, rfl⟩

end ThreadsafeQueue

open ThreadsafeQueue in
theorem runOps_tryPop_cons (v : α) (vs : List α) (ops : List (QOp α)) :
    runOps ⟨(v :: vs).map some ++ [none]⟩ (QOp.tryPop :: ops) =
      ((runOps ⟨vs.map some ++ [none]⟩ ops).1,
        v :: (runOps ⟨vs.map some ++ [none]⟩ ops).2) := by
  have h := try_pop_wf_cons v vs
  simp only [runOps, h]

open ThreadsafeQueue in
/-- Multiset-conservation core: running any operation interleaving from a
well-formed queue yields a well-formed queue, and the popped values
followed by the values still queued are exactly the initially queued
values followed by the pushed values. -/
theorem runOps_wf (ops : List (QOp α)) :
    ∀ vs : List α, ∃ popped ws,
      runOps ⟨vs.map some ++ [none]⟩ ops = (⟨ws.map some ++ [none]⟩, popped) ∧
      popped ++ ws = vs ++ pushedValues ops := by
  induction ops with
  | nil =>
      intro vs
      exact ⟨[], vs, rfl, by simp [pushedValues]⟩
  | cons op ops ih =>
      intro vs
      cases op with
      | push v =>
          obtain ⟨popped, ws, h1, h2⟩ := ih (vs ++ [v])
          refine ⟨popped, ws, ?_, ?_⟩
          · simpa [runOps, push_wf] using h1
          · simpa [pushedValues, List.append_assoc] using h2
      | tryPop =>
          cases vs with
          | nil =>
              obtain ⟨popped, ws, h1, h2⟩ := ih []
              refine ⟨popped, ws, ?_, ?_⟩
              · simpa [runOps, try_pop_wf_nil] using h1
              · simpa [pushedValues] using h2
          | cons w vs' =>
              obtain ⟨popped, ws, h1, h2⟩ := ih vs'
              refine ⟨w :: popped, ws, ?_, ?_⟩
              · rw [runOps_tryPop_cons, h1]
              · simp [pushedValues, h2]

open ThreadsafeQueue in
/-- The worker's executed-task list only ever grows: whatever is in the
accumulator stays at its front. -/
theorem workerRun_executed_grows (ds : List Bool) :
    ∀ (q : ThreadsafeQueue (FunctionWrapper τ)) (ex : List (FunctionWrapper τ)),
      ∃ suf, (workerRun ds q ex).2 = ex ++ suf := by
  induction ds with
  | nil => intro q ex; exact ⟨[], by simp [workerRun]⟩
  | cons d ds ih =>
      intro q ex
      cases d with
      | true => exact ⟨[], by simp [workerRun]⟩
      | false =>
          rcases hp : q.try_pop_ref (FunctionWrapper.default τ) with ⟨b, task, q'⟩
          cases b with
          | true =>
              obtain ⟨suf, hs⟩ := ih q' (ex ++ [task])
              exact ⟨[task] ++ suf, by simp [workerRun, hp, hs]⟩
          | false =>
              obtain ⟨suf, hs⟩ := ih q' ex
              exact ⟨suf, by simp [workerRun, hp, hs]⟩

open ThreadsafeQueue in
theorem workerRun_false_cons (ds : List Bool) (v : FunctionWrapper τ)
    (vs : List (FunctionWrapper τ)) (ex : List (FunctionWrapper τ)) :
    workerRun (false :: ds) ⟨(v :: vs).map some ++ [none]⟩ ex =
      workerRun ds ⟨vs.map some ++ [none]⟩ (ex ++ [v]) := by
  have h := try_pop_ref_wf_cons v vs (FunctionWrapper.default τ)
  simp only [workerRun, h]

open ThreadsafeQueue in
theorem workerRun_false_nil (ds : List Bool) (ex : List (FunctionWrapper τ)) :
    workerRun (false :: ds) (⟨[none]⟩ : ThreadsafeQueue (FunctionWrapper τ)) ex =
      workerRun ds ⟨[none]⟩ ex := rfl

open ThreadsafeQueue in
/-- A worker run splits the queued wrappers at some point `k`: the first
`k` are exactly the ones invoked (in order), the rest remain queued
untouched. -/
theorem workerRun_split (ds : List Bool) :
    ∀ (vs : List (FunctionWrapper τ)) (ex : List (FunctionWrapper τ)),
      ∃ k, workerRun ds ⟨vs.map some ++ [none]⟩ ex =
        (⟨(vs.drop k).map some ++ [none]⟩, ex ++ vs.take k) := by
  induction ds with
  | nil => intro vs ex; exact ⟨0, by simp [workerRun]⟩
  | cons d ds ih =>
      intro vs ex
      cases d with
      | true => exact ⟨0, by simp [workerRun]⟩
      | false =>
          cases vs with
          | nil =>
              obtain ⟨k, hk⟩ := ih [] ex
              refine ⟨k, ?_⟩
              simp only [List.map_nil, List.nil_append] at hk ⊢
              rw [workerRun_false_nil]
              simpa using hk
          | cons v vs' =>
              obtain ⟨k, hk⟩ := ih vs' (ex ++ [v])
              refine ⟨k + 1, ?_⟩
              rw [workerRun_false_cons, hk]
              simp

namespace ThreadPool

theorem spawnWorkers_ok (n : Nat) :
    ∀ (i : Nat) (started : List Nat),
      spawnWorkers (fun _ => false) i n started = .ok (started ++ List.range' i n) := by
  induction n with
  | zero => intro i s; simp [spawnWorkers, List.range']
  | succ n ih =>
      intro i s
      simp [spawnWorkers, ih (i + 1), List.range']

theorem spawnWorkers_fail (k : Nat) :
    ∀ (spawnFail : Nat → Bool) (n i : Nat) (started : List Nat),
      k < n → spawnFail (i + k) = true → (∀ j, j < k → spawnFail (i + j) = false) →
      spawnWorkers spawnFail i n started = .error (started ++ List.range' i k) := by
  induction k with
  | zero =>
      intro sf n i started hn hf _
      cases n with
      | zero => omega
      | succ m => simp [spawnWorkers, show sf i = true by simpa using hf, List.range']
  | succ k ih =>
      intro sf n i started hn hf hpre
      cases n with
      | zero => omega
      | succ m =>
          have h0 : sf i = false := by simpa using hpre 0 (Nat.succ_pos k)
          have hf' : sf (i + 1 + k) = true := by
            have : i + 1 + k = i + (k + 1) := by omega
            rw [this]; exact hf
          have hpre' : ∀ j, j < k → sf (i + 1 + j) = false := by
            intro j hj
            have : i + 1 + j = i + (j + 1) := by omega
            rw [this]; exact hpre (j + 1) (by omega)
          have := ih sf m (i + 1) (started ++ [i]) (by omega) hf' hpre'
          simp [spawnWorkers, h0, this, List.range']

end ThreadPool

namespace PoolState

theorem submit_wf (l : List (Nat × Except ε α)) (k : Nat)
    (res : List (Nat × Outcome ε α)) (f : Except ε α) :
    (PoolState.submit ⟨⟨l.map some ++ [none]⟩, k, res⟩ f).2 =
      ⟨⟨(l ++ [(k, f)]).map some ++ [none]⟩, k + 1, res⟩ := by
  simp [PoolState.submit, ThreadsafeQueue.push_wf]

theorem submitAll_wf (fs : List (Except ε α)) :
    ∀ (l : List (Nat × Except ε α)) (k : Nat) (res : List (Nat × Outcome ε α)),
      PoolState.submitAll ⟨⟨l.map some ++ [none]⟩, k, res⟩ fs =
        ⟨⟨(l ++ fs.enumFrom k).map some ++ [none]⟩, k + fs.length, res⟩ := by
  induction fs with
  | nil => intro l k res; simp [PoolState.submitAll, List.enumFrom]
  | cons f fs ih =>
      intro l k res
      simp only [PoolState.submitAll, List.foldl_cons] at ih ⊢
      rw [submit_wf, ih]
      simp [List.enumFrom, List.append_assoc]
      omega

theorem runWorkers_wf (pairs : List (Nat × Except ε α)) :
    ∀ (k : Nat) (res : List (Nat × Outcome ε α)),
      PoolState.runWorkers ⟨⟨pairs.map some ++ [none]⟩, k, res⟩ pairs.length =
        ⟨⟨[none]⟩, k, res ++ pairs.map (fun p => (p.1, runPackagedTask p.2))⟩ := by
  induction pairs with
  | nil => intro k res; simp [PoolState.runWorkers]
  | cons p ps ih =>
      intro k res
      have hstep : PoolState.workerStep ⟨⟨(p :: ps).map some ++ [none]⟩, k, res⟩ =
          ⟨⟨ps.map some ++ [none]⟩, k, res ++ [(p.1, runPackagedTask p.2)]⟩ := by
        simp only [PoolState.workerStep, ThreadsafeQueue.try_pop_wf_cons]
      simp only [List.length_cons, PoolState.runWorkers, hstep, ih]
      simp

theorem results_filter_none (g : Except ε α → Outcome ε α) (fs : List (Except ε α)) :
    ∀ (k m : Nat), m < k →
      ((fs.enumFrom k).map (fun p => (p.1, g p.2))).filter (fun p => p.1 == m) = [] := by
  induction fs with
  | nil => intro k m _; simp [List.enumFrom]
  | cons f fs ih =>
      intro k m hm
      have hne : (k == m) = false := by
        simp only [beq_eq_false_iff_ne]
        omega
      simp [List.enumFrom, List.filter_cons, hne, ih (k + 1) m (by omega)]

theorem results_filter_one (g : Except ε α → Outcome ε α) (fs : List (Except ε α)) :
    ∀ (k i : Nat) (hi : i < fs.length),
      ((fs.enumFrom k).map (fun p => (p.1, g p.2))).filter (fun p => p.1 == k + i) =
        [(k + i, g (fs.get ⟨i, hi⟩))] := by
  induction fs with
  | nil => intro k i hi; simp at hi
  | cons f fs ih =>
      intro k i hi
      cases i with
      | zero =>
          have h0 : ((fs.enumFrom (k + 1)).map (fun p => (p.1, g p.2))).filter
              (fun p => p.1 == k) = [] :=
            results_filter_none g fs (k + 1) k (by omega)
          simp only [List.enumFrom, List.map_cons, List.filter_cons, Nat.add_zero,
            beq_self_eq_true, if_true]
          rw [h0]
          rfl
      | succ i =>
          have hne : (k == k + (i + 1)) = false := by
            simp only [beq_eq_false_iff_ne]
            omega
          have h2 := ih (k + 1) i (by simpa using hi)
          have heq : k + 1 + i = k + (i + 1) := by omega
          rw [heq] at h2
          simp [List.enumFrom, List.filter_cons, hne, h2]

end PoolState

/-! ### Claim theorems -/

open ThreadsafeQueue in
/-- C1: pushing `v1..vN` in order onto a freshly constructed queue and
then calling `try_pop` N times returns `v1..vN` in that order (each as
an occupied `shared_ptr`); an (N+1)-th `try_pop` returns no value and
leaves the queue as constructed, and `empty()` then reports true. -/
theorem C1_push_pop_fifo (α : Type) (vs : List α) :
    ((ThreadsafeQueue.new α).pushAll vs).popN vs.length =
      (vs.map some, ThreadsafeQueue.new α) ∧
    (((ThreadsafeQueue.new α).pushAll vs).popN vs.length).2.try_pop =
      (none, ThreadsafeQueue.new α) ∧
    (((ThreadsafeQueue.new α).pushAll vs).popN vs.length).2.empty = true := by
  have hq : (ThreadsafeQueue.new α).pushAll vs = ⟨vs.map some ++ [none]⟩ := by
    have h := pushAll_wf vs ([] : List α)
    simpa [ThreadsafeQueue.new] using h
  refine ⟨?_, ?_, ?_⟩
  · rw [hq, popN_wf]
    rfl
  · rw [hq, popN_wf]
    rfl
  · rw [hq, popN_wf]
    rfl

/-- C2 counterexample: the claim says a pool constructed while the
hardware-concurrency query returns zero still has at least one worker;
the constructor has no such fallback and spawns zero workers there. -/
theorem C2_no_fallback_counterexample : ¬ (1 ≤ ThreadPool.workersSpawned 0) := by
  decide

/-- C2 amended: the constructor spawns exactly
`std::thread::hardware_concurrency()` worker threads, with no
minimum-one fallback; an indeterminate (zero) query yields a pool with
zero workers. -/
theorem C2_exact_hardware_concurrency (hc : Nat) :
    ThreadPool.workersSpawned hc = hc := by
  have h := ThreadPool.spawnWorkers_ok hc 0 []
  simp only [ThreadPool.workersSpawned, ThreadPool.construct, h, List.nil_append]
  simp [List.length_range']

open ThreadsafeQueue in
/-- C3: `head == tail` exactly when the queue is logically empty; the
well-formedness invariant is preserved by `push` and both `try_pop`
variants; `empty()` is true right after construction, false right after
any push, and true again after the pop removing the last element. -/
theorem C3_head_eq_tail_iff_empty :
    (∀ (α : Type) (q : ThreadsafeQueue α), q.Wf → (q.empty = true ↔ q.toList = [])) ∧
    (∀ (α : Type) (q : ThreadsafeQueue α) (v : α), q.Wf → (q.push v).Wf) ∧
    (∀ (α : Type) (q : ThreadsafeQueue α), q.Wf → q.try_pop.2.Wf) ∧
    (∀ (α : Type) (q : ThreadsafeQueue α) (x : α), q.Wf → (q.try_pop_ref x).2.2.Wf) ∧
    (∀ α : Type, (ThreadsafeQueue.new α).empty = true) ∧
    (∀ (α : Type) (q : ThreadsafeQueue α) (v : α), q.Wf → (q.push v).empty = false) ∧
    (∀ (α : Type) (q : ThreadsafeQueue α) (v : α), q.Wf → q.toList = [v] →
      q.try_pop.2.empty = true) := by
  refine ⟨?_, ?_, ?_, ?_, ?_, ?_, ?_⟩
  · intro α q hw
    obtain ⟨vs, rfl⟩ := eq_mk_of_wf hw
    rw [empty_wf, toList_wf]
    cases vs <;> simp
  · intro α q v hw
    obtain ⟨vs, rfl⟩ := eq_mk_of_wf hw
    rw [push_wf]
    exact wf_mk _
  · intro α q hw
    obtain ⟨vs, rfl⟩ := eq_mk_of_wf hw
    cases vs with
    | nil => exact wf_mk []
    | cons v vs' =>
        rw [try_pop_wf_cons]
        exact wf_mk vs'
  · intro α q x hw
    obtain ⟨vs, rfl⟩ := eq_mk_of_wf hw
    cases vs with
    | nil => exact wf_mk []
    | cons v vs' =>
        rw [try_pop_ref_wf_cons]
        exact wf_mk vs'
  · intro α
    rfl
  · intro α q v hw
    obtain ⟨vs, rfl⟩ := eq_mk_of_wf hw
    rw [push_wf, empty_wf]
    simp
  · intro α q v hw hone
    obtain ⟨vs, rfl⟩ := eq_mk_of_wf hw
    rw [toList_wf] at hone
    subst hone
    rw [try_pop_wf_cons]
    exact empty_wf []

open ThreadsafeQueue in
/-- C3 witness: on a concrete one-element queue, `empty()` is false
after the push and true again after the pop removing that element. -/
theorem C3_head_eq_tail_iff_empty_witness :
    ((ThreadsafeQueue.new Nat).push 5).empty = false ∧
    ((ThreadsafeQueue.new Nat).push 5).try_pop.2.empty = true :=
  ⟨C3_head_eq_tail_iff_empty.2.2.2.2.2.1 Nat (ThreadsafeQueue.new Nat) 5 ⟨[], rfl⟩,
   C3_head_eq_tail_iff_empty.2.2.2.2.2.2 Nat ((ThreadsafeQueue.new Nat).push 5) 5
     ⟨[5], rfl⟩ rfl⟩

open ThreadsafeQueue in
/-- C4: over any interleaving of producer pushes and consumer
`try_pop`s (each operation is one critical section, so a concurrent
execution linearises to such a sequence), the popped values followed by
the values still queued are exactly the pushed values — no value is
lost and none duplicated; in multiset terms, popped + remaining =
pushed. -/
theorem C4_no_loss_no_duplication (α : Type) (ops : List (QOp α)) :
    (runOps (ThreadsafeQueue.new α) ops).2 ++
        (runOps (ThreadsafeQueue.new α) ops).1.toList = pushedValues ops ∧
    ((runOps (ThreadsafeQueue.new α) ops).2 : Multiset α) +
        ((runOps (ThreadsafeQueue.new α) ops).1.toList : Multiset α) =
      (pushedValues ops : Multiset α) := by
  obtain ⟨popped, ws, h1, h2⟩ := runOps_wf ops ([] : List α)
  have hnew : (ThreadsafeQueue.new α) = ⟨([] : List α).map some ++ [none]⟩ := rfl
  rw [hnew, h1, toList_wf]
  have h3 : popped ++ ws = pushedValues ops := by simpa using h2
  refine ⟨h3, ?_⟩
  have h5 : ((popped ++ ws : List α) : Multiset α) = (pushedValues ops : Multiset α) := by
    rw [h3]
  simpa using h5

/-- C5: for every list of submitted callables, each returned future is
fulfilled exactly once, with precisely the value the callable returned
or the error it raised; callables submitted after a failing one are
unaffected. -/
theorem C5_submit_future_outcome (ε α : Type) (fs : List (Except ε α)) (i : Nat)
    (hi : i < fs.length) :
    (((PoolState.init ε α).submitAll fs).runWorkers fs.length).results.filter
        (fun p => p.1 == i) = [(i, runPackagedTask (fs.get ⟨i, hi⟩))] ∧
    (((PoolState.init ε α).submitAll fs).runWorkers fs.length).futureGet i =
      some (runPackagedTask (fs.get ⟨i, hi⟩)) := by
  have hsub := PoolState.submitAll_wf fs ([] : List (Nat × Except ε α)) 0 []
  have hrun := PoolState.runWorkers_wf (fs.enumFrom 0) fs.length
    ([] : List (Nat × Outcome ε α))
  have hlen : (fs.enumFrom 0).length = fs.length := by simp
  rw [hlen] at hrun
  have hfin : ((PoolState.init ε α).submitAll fs).runWorkers fs.length =
      ⟨⟨[none]⟩, fs.length,
        (fs.enumFrom 0).map (fun p => (p.1, runPackagedTask p.2))⟩ := by
    have hinit : PoolState.init ε α =
        ⟨⟨([] : List (Nat × Except ε α)).map some ++ [none]⟩, 0, []⟩ := rfl
    rw [hinit, hsub]
    simpa using hrun
  have hfil := PoolState.results_filter_one runPackagedTask fs 0 i hi
  rw [Nat.zero_add] at hfil
  refine ⟨?_, ?_⟩
  · rw [hfin]
    exact hfil
  · rw [hfin]
    show (((fs.enumFrom 0).map (fun p => (p.1, runPackagedTask p.2))).filter
        (fun p => p.1 == i)).head?.map Prod.snd = _
    rw [hfil]
    rfl

/-- C5 witness: three concrete submissions — a value, an error, a later
value — each future observes exactly its own callable's outcome; the
error does not disturb the later submission. -/
theorem C5_submit_future_outcome_witness :
    ((((PoolState.init String Nat).submitAll
          [.ok 1, .error "boom", .ok 2]).runWorkers 3).results.filter
        (fun p => p.1 == 1) = [(1, .error "boom")] ∧
      (((PoolState.init String Nat).submitAll
          [.ok 1, .error "boom", .ok 2]).runWorkers 3).futureGet 1 =
        some (.error "boom")) ∧
    (((PoolState.init String Nat).submitAll
        [.ok 1, .error "boom", .ok 2]).runWorkers 3).futureGet 2 =
      some (.value 2) :=
  ⟨C5_submit_future_outcome String Nat [.ok 1, .error "boom", .ok 2] 1 (by decide),
   (C5_submit_future_outcome String Nat [.ok 1, .error "boom", .ok 2] 2 (by decide)).2⟩

/-- C6: thread-creation failure while spawning worker `i` makes the
constructor set `done`, join the already-started workers `0..i-1`
during unwinding — `joiner` is destroyed before `threads` — and
propagate the failure, so no pool object is returned. -/
theorem C6_ctor_failure_cleanup (spawnFail : Nat → Bool) (tc i : Nat)
    (hlt : i < tc) (hf : spawnFail i = true)
    (hpre : ∀ j, j < i → spawnFail j = false) :
    ThreadPool.construct tc spawnFail = .error ⟨true, List.range i⟩ := by
  have h := ThreadPool.spawnWorkers_fail i spawnFail tc 0 [] (by omega)
    (by simpa using hf) (by intro j hj; simpa using hpre j hj)
  simp only [ThreadPool.construct, h, ThreadPool.JoinThreads.joinAll]
  simp [List.range_eq_range']

/-- C6 witness: spawning fails at worker 2 of 4; the constructor
propagates the error with `done = true` and workers 0 and 1 joined. -/
theorem C6_ctor_failure_cleanup_witness :
    ThreadPool.construct 4 (fun n => n == 2) = .error ⟨true, List.range 2⟩ :=
  C6_ctor_failure_cleanup (fun n => n == 2) 4 2 (by decide) (by decide) (by decide)

open ThreadsafeQueue in
/-- C7: the worker reads `done` once per iteration, between task
executions: an iteration that observes true exits at once invoking
nothing; a task popped in an iteration that observed false is invoked
to completion whatever the flag does afterwards; and any run splits the
queued wrappers at some `k` — the first `k` are the invoked ones, the
wrappers still queued at exit were never invoked. -/
theorem C7_worker_shutdown (τ : Type) :
    (∀ (ds : List Bool) (q : ThreadsafeQueue (FunctionWrapper τ))
        (ex : List (FunctionWrapper τ)), workerRun (true :: ds) q ex = (q, ex)) ∧
    (∀ (ds : List Bool) (t : FunctionWrapper τ) (vs : List (FunctionWrapper τ))
        (ex : List (FunctionWrapper τ)),
        t ∈ (workerRun (false :: ds) ⟨(t :: vs).map some ++ [none]⟩ ex).2) ∧
    (∀ (ds : List Bool) (vs : List (FunctionWrapper τ)),
        ∃ k, workerRun ds ⟨vs.map some ++ [none]⟩ [] =
          (⟨(vs.drop k).map some ++ [none]⟩, vs.take k)) := by
  refine ⟨fun ds q ex => rfl, ?_, ?_⟩
  · intro ds t vs ex
    rw [workerRun_false_cons]
    obtain ⟨suf, hs⟩ := workerRun_executed_grows ds ⟨vs.map some ++ [none]⟩ (ex ++ [t])
    rw [hs]
    simp
  · intro ds vs
    obtain ⟨k, hk⟩ := workerRun_split ds vs []
    exact ⟨k, by simpa using hk⟩

open ThreadsafeQueue in
/-- C8: on every non-empty well-formed queue the blocking pops return,
and perform exactly the extraction of the corresponding non-blocking
pops: same popped value, same resulting queue, with the out-parameter
variants also assigning the same value. -/
theorem C8_wait_pop_refines_try_pop (α : Type) (q : ThreadsafeQueue α) (x : α)
    (hw : q.Wf) (hne : q.toList ≠ []) :
    q.wait_and_pop = some q.try_pop ∧
    (q.try_pop_ref x).1 = true ∧
    q.wait_and_pop_ref x = some ((q.try_pop_ref x).2.1, (q.try_pop_ref x).2.2) := by
  obtain ⟨vs, rfl⟩ := eq_mk_of_wf hw
  cases vs with
  | nil => exact absurd (toList_wf []) hne
  | cons v vs' =>
      refine ⟨?_, ?_, ?_⟩
      · rw [wait_and_pop_wf_cons, try_pop_wf_cons]
      · rw [try_pop_ref_wf_cons]
      · rw [wait_and_pop_ref_wf_cons, try_pop_ref_wf_cons]

open ThreadsafeQueue in
/-- C8 witness: on the concrete one-element queue holding 7, blocking
and non-blocking pops coincide. -/
theorem C8_wait_pop_refines_try_pop_witness :
    (⟨[some 7, none]⟩ : ThreadsafeQueue Nat).wait_and_pop =
      some (⟨[some 7, none]⟩ : ThreadsafeQueue Nat).try_pop ∧
    ((⟨[some 7, none]⟩ : ThreadsafeQueue Nat).try_pop_ref 0).1 = true ∧
    (⟨[some 7, none]⟩ : ThreadsafeQueue Nat).wait_and_pop_ref 0 =
      some (((⟨[some 7, none]⟩ : ThreadsafeQueue Nat).try_pop_ref 0).2.1,
        ((⟨[some 7, none]⟩ : ThreadsafeQueue Nat).try_pop_ref 0).2.2) :=
  C8_wait_pop_refines_try_pop Nat ⟨[some 7, none]⟩ 0 ⟨[7], rfl⟩ (by decide)

open ThreadsafeQueue in
/-- C9: on every empty well-formed queue, `try_pop` returns no value (a
null `shared_ptr`, or false with the out-parameter untouched) without
blocking, and the queue is left unchanged. -/
theorem C9_try_pop_empty_no_value (α : Type) (q : ThreadsafeQueue α) (x : α)
    (hw : q.Wf) (he : q.toList = []) :
    q.try_pop = (none, q) ∧ q.try_pop_ref x = (false, x, q) := by
  obtain ⟨vs, rfl⟩ := eq_mk_of_wf hw
  cases vs with
  | nil => exact ⟨rfl, rfl⟩
  | cons v vs' =>
      rw [toList_wf] at he
      exact absurd he (List.cons_ne_nil v vs')

open ThreadsafeQueue in
/-- C9 witness: on the freshly constructed queue, `try_pop` reports no
value and changes nothing. -/
theorem C9_try_pop_empty_no_value_witness :
    (ThreadsafeQueue.new Nat).try_pop = (none, ThreadsafeQueue.new Nat) ∧
    (ThreadsafeQueue.new Nat).try_pop_ref 0 = (false, 0, ThreadsafeQueue.new Nat) :=
  C9_try_pop_empty_no_value Nat (ThreadsafeQueue.new Nat) 0 ⟨[], rfl⟩ rfl

open ThreadsafeQueue in
/-- C10: a default-constructed wrapper holds no callable and invoking
it dispatches through the null `impl` pointer (undefined); the worker
invokes only wrappers obtained from a successful `try_pop`, so when
every queued wrapper holds a callable, every wrapper the worker ever
invokes holds one — the unsafe branch is unreachable. -/
theorem C10_empty_taskcell_never_invoked (τ ρ : Type) :
    (FunctionWrapper.default τ).impl = none ∧
    (∀ run : τ → ρ, (FunctionWrapper.default τ).callOp run = none) ∧
    (∀ (ds : List Bool) (vs : List (FunctionWrapper τ)),
        vs.all (fun w => w.impl.isSome) = true →
        ((workerRun ds ⟨vs.map some ++ [none]⟩ []).2.all
          (fun w => w.impl.isSome)) = true) := by
  refine ⟨rfl, fun run => rfl, ?_⟩
  intro ds vs hall
  obtain ⟨k, hk⟩ := workerRun_split ds vs []
  rw [hk]
  simp only [List.nil_append]
  rw [List.all_eq_true] at hall ⊢
  intro w hw
  exact hall w (List.take_subset k vs hw)

open ThreadsafeQueue in
/-- C10 witness: a worker draining a queue holding one occupied wrapper
invokes only occupied wrappers. -/
theorem C10_empty_taskcell_never_invoked_witness :
    ([(⟨some 3⟩ : FunctionWrapper Nat)].all (fun w => w.impl.isSome) = true) ∧
    ((workerRun [false, true]
        ⟨[(⟨some 3⟩ : FunctionWrapper Nat)].map some ++ [none]⟩ []).2.all
      (fun w => w.impl.isSome) = true) :=
  ⟨by decide,
   (C10_empty_taskcell_never_invoked Nat Nat).2.2 [false, true]
     [(⟨some 3⟩ : FunctionWrapper Nat)] (by decide)⟩

end OneForAll
